import Mathlib

/-!
Verification of the curling physics core (stone collision resolution, tile
velocity effects, the fixed-update motion tick and the trajectory predictor)
against its natural-language specification.  The Rust source is shallowly
embedded: `f32` arithmetic is idealised as real arithmetic, 2D vectors become
a `Vec2` structure over `ℝ`, ECS systems become functions on lists of
per-stone records, and the parts of the tile module that exist in the
repository only through their callers are modelled from the specification
text (marked `Modelled from the spec:`).
-/

noncomputable section

open scoped Classical

/-- Planar vector over the reals, standing in for `bevy::math::Vec2`. -/
@[ext]
structure Vec2 where
  x : ℝ
  y : ℝ

namespace Vec2

instance : Zero Vec2 := ⟨⟨0, 0⟩⟩

instance : Add Vec2 := ⟨fun a b => ⟨a.x + b.x, a.y + b.y⟩⟩

instance : Sub Vec2 := ⟨fun a b => ⟨a.x - b.x, a.y - b.y⟩⟩

instance : Neg Vec2 := ⟨fun a => ⟨-a.x, -a.y⟩⟩

instance : SMul ℝ Vec2 := ⟨fun c v => ⟨c * v.x, c * v.y⟩⟩

@[simp] theorem zero_x : (0 : Vec2).x = 0 := rfl

@[simp] theorem zero_y : (0 : Vec2).y = 0 := rfl

@[simp] theorem add_x (a b : Vec2) : (a + b).x = a.x + b.x := rfl

@[simp] theorem add_y (a b : Vec2) : (a + b).y = a.y + b.y := rfl

@[simp] theorem sub_x (a b : Vec2) : (a - b).x = a.x - b.x := rfl

@[simp] theorem sub_y (a b : Vec2) : (a - b).y = a.y - b.y := rfl

@[simp] theorem smul_x (c : ℝ) (v : Vec2) : (c • v).x = c * v.x := rfl

@[simp] theorem smul_y (c : ℝ) (v : Vec2) : (c • v).y = c * v.y := rfl

/-- Dot product, `Vec2::dot`. -/
def dot (a b : Vec2) : ℝ := a.x * b.x + a.y * b.y

/-- Squared length, `Vec2::length_squared`. -/
def length_squared (v : Vec2) : ℝ := v.x ^ 2 + v.y ^ 2

/-- Euclidean length, `Vec2::length`. -/
def length (v : Vec2) : ℝ := Real.sqrt v.length_squared

/-- Squared distance, `Vec2::distance_squared`. -/
def distance_squared (a b : Vec2) : ℝ := (a - b).length_squared

/-- Euclidean distance, `Vec2::distance`. -/
def distance (a b : Vec2) : ℝ := (a - b).length

/-- Normalization, `Vec2::normalize_or_zero`: the zero vector normalizes to zero. -/
def normalize_or_zero (v : Vec2) : Vec2 :=
  if v = 0 then 0 else (1 / v.length) • v

theorem length_squared_nonneg (v : Vec2) : 0 ≤ v.length_squared :=
  add_nonneg (sq_nonneg _) (sq_nonneg _)

theorem length_nonneg (v : Vec2) : 0 ≤ v.length := Real.sqrt_nonneg _

@[simp] theorem length_squared_zero : (0 : Vec2).length_squared = 0 := by
  simp [length_squared]

@[simp] theorem length_zero : (0 : Vec2).length = 0 := by
  simp [length]

theorem length_squared_eq_zero_iff (v : Vec2) : v.length_squared = 0 ↔ v = 0 := by
  constructor
  · intro h
    rw [length_squared] at h
    have hx : v.x ^ 2 = 0 ∧ v.y ^ 2 = 0 := by
      constructor <;> nlinarith [sq_nonneg v.x, sq_nonneg v.y]
    ext <;> [exact pow_eq_zero_iff two_ne_zero |>.mp hx.1;
             exact pow_eq_zero_iff two_ne_zero |>.mp hx.2]
  · rintro rfl; simp

theorem length_eq_zero_iff (v : Vec2) : v.length = 0 ↔ v = 0 := by
  rw [length, Real.sqrt_eq_zero (length_squared_nonneg v), length_squared_eq_zero_iff]

theorem sq_length (v : Vec2) : v.length ^ 2 = v.length_squared :=
  Real.sq_sqrt (length_squared_nonneg v)

theorem length_smul (c : ℝ) (v : Vec2) : (c • v).length = |c| * v.length := by
  have : (c • v).length_squared = c ^ 2 * v.length_squared := by
    simp [length_squared]; ring
  rw [length, this, Real.sqrt_mul (sq_nonneg c), Real.sqrt_sq_eq_abs, ← length]

theorem length_le_of_length_squared_le {a b : Vec2}
    (h : a.length_squared ≤ b.length_squared) : a.length ≤ b.length :=
  Real.sqrt_le_sqrt h

end Vec2

/-! ## Collision Resolver (`stone.rs::resolve_collision`) -/

/-- Collision normal from stone1 to stone2; if the stones are at the exact
same position, a default direction (`Vec2::X`) is used. -/
def collision_normal (pos1 pos2 : Vec2) : Vec2 :=
  let n := (pos2 - pos1).normalize_or_zero
  if n = 0 then ⟨1, 0⟩ else n

/-- The resolver `resolve_collision`: checks if two stones collide and returns their new
velocities if they do. -/
def resolve_collision (pos1 vel1 : Vec2) (radius1 : ℝ) (pos2 vel2 : Vec2)
    (radius2 : ℝ) : Option (Vec2 × Vec2) :=
  let dist_sq := pos1.distance_squared pos2
  let min_distance := radius1 + radius2
  if dist_sq ≥ min_distance * min_distance then none
  else
    let n := collision_normal pos1 pos2
    let relative_velocity := vel1 - vel2
    let velocity_along_normal := relative_velocity.dot n
    if velocity_along_normal ≤ 0 then none
    else
      let restitution : ℝ := 0.85
      let impulse_scalar := (1 + restitution) * velocity_along_normal / 2
      let impulse := impulse_scalar • n
      some (vel1 - impulse, vel2 + impulse)

/-! ## Geometry Engine (`intersection.rs`) -/

/-- Fast AABB intersection check between a circle and a flat-top hexagon,
with half-extents `hexRadius` by `hexRadius * sqrt 3 / 2` for the hexagon. -/
def aabb_intersects (circle_center : Vec2) (circle_radius : ℝ)
    (hex_center : Vec2) (hex_radius : ℝ) : Prop :=
  let circle_min := circle_center - ⟨circle_radius, circle_radius⟩
  let circle_max := circle_center + ⟨circle_radius, circle_radius⟩
  let hex_half_extents : Vec2 := ⟨hex_radius, hex_radius * Real.sqrt 3 / 2⟩
  let hex_min := hex_center - hex_half_extents
  let hex_max := hex_center + hex_half_extents
  circle_min.x ≤ hex_max.x ∧ circle_min.y ≤ hex_max.y ∧
    circle_max.x ≥ hex_min.x ∧ circle_max.y ≥ hex_min.y

/-- Points on the circle circumference, evenly distributed counter-clockwise
from angle 0. -/
def approximate_circle_points (radius : ℝ) (center : Vec2) (samples : ℕ) :
    List Vec2 :=
  (List.range samples).map fun i : ℕ =>
    let angle := 2 * Real.pi * (i : ℝ) / (samples : ℝ)
    ⟨center.x + radius * Real.cos angle, center.y + radius * Real.sin angle⟩

/-- Vertices of a flat-top hexagon in counter-clockwise order. -/
def hexagon_points (radius : ℝ) (center : Vec2) : List Vec2 :=
  (List.range 6).map fun i : ℕ =>
    let angle := Real.pi / 3 * (i : ℝ)
    ⟨center.x + radius * Real.cos angle, center.y + radius * Real.sin angle⟩

/-- Area of a polygon by the shoelace formula; returns the absolute value. -/
def polygon_area (points : List Vec2) : ℝ :=
  if points.length < 3 then 0
  else
    let n := points.length
    let total := (List.range n).foldl (fun sum i =>
      let current := points.getD i 0
      let next := points.getD ((i + 1) % n) 0
      sum + (current.x * next.y - next.x * current.y)) 0
    |total / 2|

/-- Whether a point is on the inside (left) side of a directed edge. -/
def is_inside_edge (point edge_start edge_end : Vec2) : Prop :=
  let edge := edge_end - edge_start
  let to_point := point - edge_start
  edge.x * to_point.y - edge.y * to_point.x ≥ 0

/-- Intersection point of two line segments; `none` when the lines are
(within the 1e-10 guard) parallel. -/
def line_segment_intersection (p1 p2 p3 p4 : Vec2) : Option Vec2 :=
  let d1 := p2 - p1
  let d2 := p4 - p3
  let cross := d1.x * d2.y - d1.y * d2.x
  if |cross| < 1e-10 then none
  else
    let d3 := p3 - p1
    let t := (d3.x * d2.y - d3.y * d2.x) / cross
    some (p1 + t • d1)

/-- One pass of Sutherland–Hodgman clipping: clips `input` against the single
directed edge from `edge_start` to `edge_end`. -/
def clip_one_edge (input : List Vec2) (edge_start edge_end : Vec2) :
    List Vec2 :=
  (List.range input.length).foldl (fun output j =>
    let current := input.getD j 0
    let previous := input.getD ((j + input.length - 1) % input.length) 0
    let current_inside := is_inside_edge current edge_start edge_end
    let previous_inside := is_inside_edge previous edge_start edge_end
    if current_inside then
      (if ¬ previous_inside then
        match line_segment_intersection previous current edge_start edge_end with
        | some ipt => output ++ [ipt]
        | none => output
      else output) ++ [current]
    else if previous_inside then
      match line_segment_intersection previous current edge_start edge_end with
      | some ipt => output ++ [ipt]
      | none => output
    else output) []

/-- Sutherland–Hodgman polygon clipping against a convex counter-clockwise
clip polygon.  Clipping an empty intermediate polygon stays empty, matching
the source's early return. -/
def clip_polygon_sutherland_hodgman (polygon clip_polygon : List Vec2) :
    List Vec2 :=
  if polygon.isEmpty ∨ clip_polygon.length < 3 then []
  else
    (List.range clip_polygon.length).foldl (fun output i =>
      let edge_start := clip_polygon.getD i 0
      let edge_end := clip_polygon.getD ((i + 1) % clip_polygon.length) 0
      clip_one_edge output edge_start edge_end) polygon

/-- The area function `circle_area_inside_hexagon`: AABB fast-reject, then clip the
circle-polygon against the hexagon and take the shoelace area. -/
def circle_area_inside_hexagon (circle_center : Vec2) (circle_radius : ℝ)
    (hex_center : Vec2) (hex_radius : ℝ) (samples : ℕ) : ℝ :=
  if ¬ aabb_intersects circle_center circle_radius hex_center hex_radius then 0
  else
    let circle_points := approximate_circle_points circle_radius circle_center samples
    let hex_points := hexagon_points hex_radius hex_center
    let clipped_points := clip_polygon_sutherland_hodgman circle_points hex_points
    polygon_area clipped_points

/-- Overlap area divided by the full circle area. -/
def ratio_circle_area_inside_hexagon (circle_center : Vec2)
    (circle_radius : ℝ) (hex_center : Vec2) (hex_radius : ℝ)
    (samples : ℕ) : ℝ :=
  circle_area_inside_hexagon circle_center circle_radius hex_center hex_radius
      samples / (Real.pi * circle_radius * circle_radius)

/-! ## Tile-Effect Model (`tile.rs`) -/

/-- The tile behaviour variants of `tile.rs` as present under `src/`. -/
inductive TileType where
  | wall
  | maintainSpeed
  | slowDown
  | turnCounterclockwise
  | turnClockwise
  | goal
deriving DecidableEq, Repr

/-- The six precomputed outward unit normals of a hexagon's edges
(`HEX_EDGE_NORMALS`). -/
def hexEdgeNormals : List Vec2 :=
  [⟨0.8660254, 0.5⟩, ⟨0, 1⟩, ⟨-0.8660254, 0.5⟩,
   ⟨-0.8660254, -0.5⟩, ⟨0, -1⟩, ⟨0.8660254, -0.5⟩]

/-- Two-argument arctangent, the embedding of `f32::atan2` (range (-pi, pi],
zero at the origin). -/
def atan2 (y x : ℝ) : ℝ := Complex.arg ⟨x, y⟩

/-- The selector `hex_edge_normal`: pick the edge normal by the 60-degree sector holding
the stone's angle relative to the tile center. -/
def hex_edge_normal (relative_pos : Vec2) : Vec2 :=
  let angle := atan2 relative_pos.y relative_pos.x
  let angle := if angle < 0 then angle + 2 * Real.pi else angle
  let sector := min (Nat.floor (angle / (Real.pi / 3))) 5
  hexEdgeNormals.getD sector 0

/-- The body of the per-tile loop of `compute_tile_effects`, acting on the
state `(new_velocity, rotation_angle, total_drag)`. -/
def tile_effect_step (stone_pos : Vec2)
    (hex_radius drag_coefficient stone_radius slow_down_factor
      rotation_factor : ℝ) (st : Vec2 × ℝ × ℝ) (tile : TileType × Vec2) :
    Vec2 × ℝ × ℝ :=
  let ratio := ratio_circle_area_inside_hexagon stone_pos stone_radius tile.2
    (hex_radius - 2) 60
  if ratio < 0.01 then st
  else
    match tile.1 with
    | .wall =>
        let wall_normal := hex_edge_normal (stone_pos - tile.2)
        let d := st.1.dot wall_normal
        if d < 0 then
          let original_speed := st.1.length
          let reflected := st.1 - (2 * d) • wall_normal
          let new_speed := reflected.length
          if new_speed > 1e-10 then
            ((original_speed / new_speed) • reflected, st.2.1, st.2.2)
          else (reflected, st.2.1, st.2.2)
        else st
    | .maintainSpeed => (st.1, st.2.1, st.2.2 + drag_coefficient * ratio)
    | .slowDown =>
        (st.1, st.2.1, st.2.2 + drag_coefficient * ratio * slow_down_factor)
    | .turnCounterclockwise =>
        (st.1, st.2.1 + rotation_factor * ratio,
          st.2.2 + drag_coefficient * ratio)
    | .turnClockwise =>
        (st.1, st.2.1 - rotation_factor * ratio,
          st.2.2 + drag_coefficient * ratio)
    | .goal =>
        let to_center := tile.2 - stone_pos
        let dist := to_center.length
        let v' := if dist > 1e-10 then
            let direction := (1 / dist) • to_center
            let pull_strength := 0.5 * ratio
            st.1 + pull_strength • direction
          else st.1
        (v', st.2.1, st.2.2 + drag_coefficient * slow_down_factor * ratio)

/-- The per-tile loop of `compute_tile_effects`, started from the input
velocity with zero accumulated rotation and drag. -/
def tile_loop (stone_pos velocity : Vec2) (tiles : List (TileType × Vec2))
    (hex_radius drag_coefficient stone_radius slow_down_factor
      rotation_factor : ℝ) : Vec2 × ℝ × ℝ :=
  tiles.foldl
    (tile_effect_step stone_pos hex_radius drag_coefficient stone_radius
      slow_down_factor rotation_factor)
    (velocity, 0, 0)

/-- The single accumulated rotation applied after the tile loop. -/
def apply_rotation (rotation_angle : ℝ) (v : Vec2) : Vec2 :=
  if |rotation_angle| > 1e-10 then
    ⟨v.x * Real.cos rotation_angle - v.y * Real.sin rotation_angle,
     v.x * Real.sin rotation_angle + v.y * Real.cos rotation_angle⟩
  else v

/-- The final drag step applied after the rotation. -/
def apply_drag (total_drag : ℝ) (v : Vec2) : Vec2 :=
  if total_drag > 0 then (max 0 (1 - total_drag)) • v else v

/-- The effect function `compute_tile_effects`: per-tile loop, then one accumulated rotation,
then the accumulated drag. -/
def compute_tile_effects (stone_pos velocity : Vec2)
    (tiles : List (TileType × Vec2))
    (hex_radius drag_coefficient stone_radius slow_down_factor
      rotation_factor : ℝ) : Vec2 :=
  let res := tile_loop stone_pos velocity tiles hex_radius drag_coefficient
    stone_radius slow_down_factor rotation_factor
  apply_drag res.2.2 (apply_rotation res.2.1 res.1)

/-! ## Motion Integrator (`stone.rs` systems, chained in `gameplay::plugin`)

The per-stone data read and written by the physics systems is the position,
the velocity and the radius; the purely visual fire-trail bookkeeping of
`update_stone_position` is not modelled. -/

/-- Per-stone physics state: position, velocity and radius. -/
structure StoneState where
  pos : Vec2
  vel : Vec2
  radius : ℝ

/-- The ordered index pairs `(j, k)` with `j < k < n`, in the order produced
by the nested loops of `simulate_trajectories` and by
`iter_combinations_mut` in `apply_stone_collision`. -/
def stone_pairs (n : ℕ) : List (ℕ × ℕ) :=
  (List.range n).flatMap fun j =>
    ((List.range n).filter fun k => j < k).map fun k => (j, k)

/-- The body of the pair loop of `apply_stone_collision` (and of the
collision phase of `simulate_trajectories`): resolve the pair at indices
`jk` and write the new velocities back. -/
def collide_pair_step (st : List StoneState) (jk : ℕ × ℕ) : List StoneState :=
  let s1 := st.getD jk.1 ⟨0, 0, 0⟩
  let s2 := st.getD jk.2 ⟨0, 0, 0⟩
  match resolve_collision s1.pos s1.vel s1.radius s2.pos s2.vel s2.radius with
  | some nv =>
      (st.set jk.1 ⟨s1.pos, nv.1, s1.radius⟩).set jk.2 ⟨s2.pos, nv.2, s2.radius⟩
  | none => st

/-- The system `apply_stone_collision`: resolve each unique stone pair once, writing the
new velocities back before later pairs are processed. -/
def apply_stone_collision (stones : List StoneState) : List StoneState :=
  (stone_pairs stones.length).foldl collide_pair_step stones

/-- Position of the first `Goal` tile, as found by `update_stone_position`. -/
def goal_pos_of (tiles : List (TileType × Vec2)) : Option Vec2 :=
  tiles.findSome? fun t => if t.1 = TileType.goal then some t.2 else none

/-- The per-stone body of `update_stone_position`: move by `velocity * dt`,
then hard-snap to the goal center (zeroing the velocity) when close enough
and slow enough. -/
def update_stone_position_step (tiles : List (TileType × Vec2))
    (dt snap_distance snap_velocity : ℝ) (s : StoneState) : StoneState :=
  let moved := s.pos + dt • s.vel
  let speed := s.vel.length
  match goal_pos_of tiles with
  | some goal_center =>
      if moved.distance goal_center < snap_distance ∧ speed < snap_velocity then
        ⟨goal_center, 0, s.radius⟩
      else ⟨moved, s.vel, s.radius⟩
  | none => ⟨moved, s.vel, s.radius⟩

/-- The system `update_stone_position` over all stones. -/
def update_stone_position (tiles : List (TileType × Vec2))
    (dt snap_distance snap_velocity : ℝ) (stones : List StoneState) :
    List StoneState :=
  stones.map (update_stone_position_step tiles dt snap_distance snap_velocity)

/-- The system `apply_tile_velocity_effects`: recompute each stone's velocity from the
tiles at its current position. -/
def apply_tile_velocity_effects (tiles : List (TileType × Vec2))
    (hex_radius drag_coefficient slow_down_factor rotation_factor : ℝ)
    (stones : List StoneState) : List StoneState :=
  stones.map fun s =>
    ⟨s.pos,
     compute_tile_effects s.pos s.vel tiles hex_radius drag_coefficient
       s.radius slow_down_factor rotation_factor,
     s.radius⟩

/-- One live `FixedUpdate` tick: the chained systems `apply_stone_collision`,
`update_stone_position`, `apply_tile_velocity_effects`, in this order
(`gameplay::plugin`). -/
def live_tick (tiles : List (TileType × Vec2))
    (hex_radius drag_coefficient slow_down_factor rotation_factor
      dt snap_distance snap_velocity : ℝ) (stones : List StoneState) :
    List StoneState :=
  apply_tile_velocity_effects tiles hex_radius drag_coefficient
    slow_down_factor rotation_factor
    (update_stone_position tiles dt snap_distance snap_velocity
      (apply_stone_collision stones))

/-- One step of the trajectory-predictor loop in `simulate_trajectories`:
collisions, then `pos += vel * dt` with no goal snap, then tile effects at
the new positions. -/
def simulate_trajectories_step (tiles : List (TileType × Vec2))
    (hex_radius drag_coefficient slow_down_factor rotation_factor
      fixed_dt : ℝ) (stones : List StoneState) : List StoneState :=
  let collided := apply_stone_collision stones
  let moved := collided.map fun s => ⟨s.pos + fixed_dt • s.vel, s.vel, s.radius⟩
  apply_tile_velocity_effects tiles hex_radius drag_coefficient
    slow_down_factor rotation_factor moved

/-! ## Spec-modelled tile module parts

The repository's newer `tile.rs` — the one its callers in `level.rs`,
`ui.rs` and `gameplay/mod.rs` compile against, with the `SpeedUp(direction)`
variant and the per-`TileType` sweep-distance map — is not present under
`src/`; only its callers are.  The definitions below model the missing parts
from the specification (sections 3, 4.2 and 7). -/

/-- Launch directions of `level.rs::Facing`. -/
inductive Facing where
  | up
  | upRight
  | downRight
  | down
  | downLeft
  | upLeft
deriving DecidableEq, Repr

/-- Launch angle `Facing::to_angle` (radians). -/
def Facing.to_angle : Facing → ℝ
  | .up => Real.pi / 2
  | .upRight => Real.pi / 6
  | .downRight => -(Real.pi / 6)
  | .down => -(Real.pi / 2)
  | .downLeft => -(Real.pi / 2) - Real.pi / 3
  | .upLeft => Real.pi / 2 + Real.pi / 3

/-- Launch vector `Facing::to_vector` = `Vec2::from_angle(to_angle)`. -/
def Facing.to_vector (f : Facing) : Vec2 :=
  ⟨Real.cos f.to_angle, Real.sin f.to_angle⟩

/-- Modelled from the spec: the closed `TileType` tagged variant of section 3
including `SpeedUp(direction)`, whose declaration lives in the newer
`tile.rs` that is absent from `src/` (its callers construct
`TileType::SpeedUp(Facing::...)`). -/
inductive TileTypeSpec where
  | wall
  | maintainSpeed
  | slowDown
  | turnCounterclockwise
  | turnClockwise
  | goal
  | speedUp (direction : Facing)
deriving DecidableEq, Repr

/-- Modelled from the spec: a `TileDragState` is a mapping from `TileType` to
an accumulated sweep distance, here an association list. -/
abbrev TileDragState : Type := List (TileTypeSpec × ℝ)

/-- Total sweep distance currently held by a drag state. -/
def TileDragState.total (st : TileDragState) : ℝ :=
  (List.map Prod.snd st).sum

/-- Helper for the redistribution mutator: walk the non-target categories in
order, taking from each at most what it actually holds, until `remaining` is
exhausted; returns the amount taken and the depleted entries. -/
def take_available (target : TileTypeSpec) :
    ℝ → List (TileTypeSpec × ℝ) → ℝ × List (TileTypeSpec × ℝ)
  | _, [] => (0, [])
  | remaining, e :: es =>
      if e.1 = target then
        let r := take_available target remaining es
        (r.1, e :: r.2)
      else
        let take := max 0 (min remaining e.2)
        let r := take_available target (remaining - take) es
        (take + r.1, (e.1, e.2 - take) :: r.2)

/-- Add an amount to the first entry of the given category. -/
def add_to_first (target : TileTypeSpec) (amt : ℝ) :
    List (TileTypeSpec × ℝ) → List (TileTypeSpec × ℝ)
  | [] => []
  | e :: es =>
      if e.1 = target then (e.1, e.2 + amt) :: es
      else e :: add_to_first target amt es

/-- Modelled from the spec: the single `TileDragState` mutator (sections 3, 7
and 9).  A drag of `amount` toward `target` moves sweep distance from the
other categories into `target`, clamped to what is actually available from
them — never negative, never more than the fixed total.  A drag toward a
category the mapping does not hold leaves the state unchanged. -/
def drag_redistribute (st : TileDragState) (target : TileTypeSpec)
    (amount : ℝ) : TileDragState :=
  if target ∈ List.map Prod.fst st then
    let r := take_available target (max 0 amount) st
    add_to_first target r.1 r.2
  else st

/-- Modelled from the spec: the per-variant velocity-effect rule of the
section 4.2 table, over the state `(velocity, rotationAngle, totalDrag)`.
For `SpeedUp(direction)`, a stone further than `gridHexRadius/4` from the
tile center receives the same attraction a `Goal` tile applies, and a closer
stone has its velocity snapped to `direction * speedUpFactor` (a
discontinuous launch, not additive). -/
def spec_apply_variant (grid_hex_radius drag_coefficient slow_down_factor
      rotation_factor speed_up_factor : ℝ) (stone_pos tile_pos : Vec2)
    (variant : TileTypeSpec) (weight weighted_ratio : ℝ)
    (st : Vec2 × ℝ × ℝ) : Vec2 × ℝ × ℝ :=
  match variant with
  | .wall =>
      let n := hex_edge_normal (stone_pos - tile_pos)
      let d := st.1.dot n
      if d < 0 then
        let original_speed := st.1.length
        let reflected := st.1 - (weight * (2 * d)) • n
        if reflected.length > 0 then
          ((original_speed / reflected.length) • reflected, st.2.1, st.2.2)
        else (reflected, st.2.1, st.2.2)
      else st
  | .maintainSpeed =>
      (st.1, st.2.1, st.2.2 + drag_coefficient * weighted_ratio)
  | .slowDown =>
      (st.1, st.2.1, st.2.2 + drag_coefficient * weighted_ratio * slow_down_factor)
  | .turnCounterclockwise =>
      (st.1, st.2.1 + rotation_factor * weighted_ratio,
        st.2.2 + drag_coefficient * weighted_ratio)
  | .turnClockwise =>
      (st.1, st.2.1 - rotation_factor * weighted_ratio,
        st.2.2 + drag_coefficient * weighted_ratio)
  | .goal =>
      (st.1 + (0.5 * weighted_ratio) • (tile_pos - stone_pos).normalize_or_zero,
        st.2.1, st.2.2 + drag_coefficient * weighted_ratio * slow_down_factor)
  | .speedUp direction =>
      if stone_pos.distance tile_pos > grid_hex_radius / 4 then
        (st.1 + (0.5 * weighted_ratio) • (tile_pos - stone_pos).normalize_or_zero,
          st.2.1, st.2.2)
      else
        (speed_up_factor • direction.to_vector, st.2.1, st.2.2)

/-- Modelled from the spec: the per-tile body of section 4.2's
`computeTileEffects` — compute the overlap ratio, skip tiles below the 0.01
threshold, then fold the tile's `TileDragState` pairs with their weights,
skipping weights below 0.001. -/
def spec_tile_step (grid_hex_radius drag_coefficient stone_radius
      slow_down_factor rotation_factor speed_up_factor : ℝ)
    (stone_pos : Vec2) (st : Vec2 × ℝ × ℝ)
    (tile : Vec2 × TileDragState) : Vec2 × ℝ × ℝ :=
  let ratio := ratio_circle_area_inside_hexagon stone_pos stone_radius tile.1
    (grid_hex_radius - 2) 60
  if ratio < 0.01 then st
  else
    let total_budget := tile.2.total
    tile.2.foldl (fun acc e =>
      let weight := e.2 / total_budget
      if weight < 0.001 then acc
      else
        spec_apply_variant grid_hex_radius drag_coefficient slow_down_factor
          rotation_factor speed_up_factor stone_pos tile.1 e.1 weight
          (ratio * weight) acc) st

/-- Modelled from the spec: section 4.2's `computeTileEffects` — fold the
tiles, then apply the single accumulated rotation, then the drag factor
`max(0, 1 - totalDrag)`. -/
def spec_compute_tile_effects (stone_pos velocity : Vec2)
    (tiles : List (Vec2 × TileDragState))
    (grid_hex_radius drag_coefficient stone_radius slow_down_factor
      rotation_factor speed_up_factor : ℝ) : Vec2 :=
  let res := tiles.foldl
    (spec_tile_step grid_hex_radius drag_coefficient stone_radius
      slow_down_factor rotation_factor speed_up_factor stone_pos)
    (velocity, 0, 0)
  let rotated : Vec2 :=
    ⟨res.1.x * Real.cos res.2.1 - res.1.y * Real.sin res.2.1,
     res.1.x * Real.sin res.2.1 + res.1.y * Real.cos res.2.1⟩
  (max 0 (1 - res.2.2)) • rotated

/-! ## Helper lemmas -/

@[simp] theorem Vec2.one_smul_eq (v : Vec2) : (1 : ℝ) • v = v := by
  ext <;> simp

@[simp] theorem Vec2.smul_zero_eq (c : ℝ) : c • (0 : Vec2) = 0 := by
  ext <;> simp

theorem tile_loop_skip_all (stone_pos velocity : Vec2)
    (tiles : List (TileType × Vec2))
    (hex_radius drag_coefficient stone_radius slow_down_factor
      rotation_factor : ℝ)
    (h : ∀ t ∈ tiles, ratio_circle_area_inside_hexagon stone_pos stone_radius
      t.2 (hex_radius - 2) 60 < 0.01) :
    tile_loop stone_pos velocity tiles hex_radius drag_coefficient
      stone_radius slow_down_factor rotation_factor = (velocity, 0, 0) := by
  rw [tile_loop]
  induction tiles with
  | nil => rfl
  | cons t ts ih =>
      rw [List.foldl_cons, tile_effect_step, if_pos (h t (by simp))]
      exact ih fun u hu => h u (by simp [hu])

@[simp] theorem apply_rotation_zero (v : Vec2) : apply_rotation 0 v = v := by
  rw [apply_rotation, if_neg]
  norm_num

@[simp] theorem apply_drag_zero (v : Vec2) : apply_drag 0 v = v := by
  rw [apply_drag, if_neg]
  norm_num

/-! ## C2: head-on collision scenario -/

theorem collision_normal_x_axis {a : ℝ} (ha : 0 < a) :
    collision_normal ⟨0, 0⟩ ⟨a, 0⟩ = ⟨1, 0⟩ := by
  have hsub : (Vec2.mk a 0 - ⟨0, 0⟩) = ⟨a, 0⟩ := by ext <;> simp
  have hne : (Vec2.mk a 0) ≠ 0 := by
    simp only [ne_eq, Vec2.ext_iff, Vec2.zero_x, Vec2.zero_y]
    intro hc
    exact ha.ne' hc.1
  have hlen : (Vec2.mk a 0).length = a := by
    show Real.sqrt (a ^ 2 + 0 ^ 2) = a
    rw [show a ^ 2 + (0 : ℝ) ^ 2 = a ^ 2 by ring, Real.sqrt_sq ha.le]
  have hnorm : (Vec2.mk a 0).normalize_or_zero = ⟨1, 0⟩ := by
    rw [Vec2.normalize_or_zero, if_neg hne, hlen]
    ext
    · show 1 / a * a = 1
      field_simp
    · show 1 / a * 0 = 0
      ring
  have hone : (Vec2.mk 1 0) ≠ 0 := by
    simp only [ne_eq, Vec2.ext_iff, Vec2.zero_x, Vec2.zero_y]
    intro hc
    exact one_ne_zero hc.1
  simp only [collision_normal, hsub, hnorm]
  exact if_neg hone

/-- C2 counterexample: at the exactly touching configuration of Scenario B
(stone2 at (20,0), radii 10 and 10) the squared center distance equals
`(r1+r2)^2`, so `resolve_collision` reports no collision at all instead of
the velocities the claim expects. -/
theorem resolve_collision_touching_is_none :
    resolve_collision ⟨0, 0⟩ ⟨100, 0⟩ 10 ⟨20, 0⟩ ⟨-100, 0⟩ 10 = none := by
  simp only [resolve_collision]
  rw [if_pos]
  rw [Vec2.distance_squared, Vec2.length_squared]
  norm_num

/-- C2 (amended): with the stones actually overlapping — stone2 at (19,0)
instead of the touching (20,0) — `resolve_collision` yields exactly the
collision normal (1,0), closing speed 200, impulse scalar 185 and resulting
velocities (-85,0) and (85,0). -/
theorem resolve_collision_head_on_values :
    collision_normal ⟨0, 0⟩ ⟨19, 0⟩ = ⟨1, 0⟩ ∧
    (Vec2.mk 100 0 - ⟨-100, 0⟩).dot (collision_normal ⟨0, 0⟩ ⟨19, 0⟩) = 200 ∧
    (1 + 0.85) *
        ((Vec2.mk 100 0 - ⟨-100, 0⟩).dot (collision_normal ⟨0, 0⟩ ⟨19, 0⟩)) / 2
      = 185 ∧
    resolve_collision ⟨0, 0⟩ ⟨100, 0⟩ 10 ⟨19, 0⟩ ⟨-100, 0⟩ 10 =
      some (⟨-85, 0⟩, ⟨85, 0⟩) := by
  have hn : collision_normal ⟨0, 0⟩ ⟨19, 0⟩ = ⟨1, 0⟩ :=
    collision_normal_x_axis (by norm_num)
  have hdot : (Vec2.mk 100 0 - ⟨-100, 0⟩).dot (collision_normal ⟨0, 0⟩ ⟨19, 0⟩)
      = 200 := by
    rw [hn, Vec2.dot]
    norm_num
  refine ⟨hn, hdot, by rw [hdot]; norm_num, ?_⟩
  simp only [resolve_collision, hn]
  rw [if_neg (by rw [Vec2.distance_squared, Vec2.length_squared]; norm_num)]
  rw [if_neg (by simp only [Vec2.dot, Vec2.sub_x, Vec2.sub_y]; norm_num)]
  simp only [Vec2.dot, Vec2.sub_x, Vec2.sub_y, Option.some.injEq, Prod.mk.injEq,
    Vec2.ext_iff, Vec2.smul_x, Vec2.smul_y, Vec2.add_x, Vec2.add_y]
  norm_num

/-! ## C4: when the resolver reports no collision -/

/-- C4: `resolve_collision` returns `none` exactly when the discs do not
overlap (squared center distance at least `(r1+r2)^2`) or the relative
velocity along the collision normal from stone1 to stone2 is not positive;
in every other case it returns `some` pair of velocities. -/
theorem resolve_collision_none_iff (p1 v1 : Vec2) (r1 : ℝ) (p2 v2 : Vec2)
    (r2 : ℝ) :
    resolve_collision p1 v1 r1 p2 v2 r2 = none ↔
      p1.distance_squared p2 ≥ (r1 + r2) ^ 2 ∨
        (v1 - v2).dot (collision_normal p1 p2) ≤ 0 := by
  simp only [resolve_collision]
  have hsq : (r1 + r2) * (r1 + r2) = (r1 + r2) ^ 2 := by ring
  split_ifs with h1 h2
  · exact iff_of_true rfl (Or.inl (hsq ▸ h1))
  · exact iff_of_true rfl (Or.inr h2)
  · refine iff_of_false (by simp) ?_
    rintro (hA | hB)
    · rw [← hsq] at hA
      exact h1 hA
    · exact h2 hB

/-! ## C6: all overlap ratios below threshold -/

/-- C6: `compute_tile_effects` returns the input velocity unchanged whenever
every tile in the input list has overlap ratio with the stone below the 0.01
threshold (in particular when the tile list is empty). -/
theorem compute_tile_effects_below_threshold (stone_pos velocity : Vec2)
    (tiles : List (TileType × Vec2))
    (hex_radius drag_coefficient stone_radius slow_down_factor
      rotation_factor : ℝ)
    (h : ∀ t ∈ tiles, ratio_circle_area_inside_hexagon stone_pos stone_radius
      t.2 (hex_radius - 2) 60 < 0.01) :
    compute_tile_effects stone_pos velocity tiles hex_radius drag_coefficient
      stone_radius slow_down_factor rotation_factor = velocity := by
  rw [compute_tile_effects,
    tile_loop_skip_all stone_pos velocity tiles hex_radius drag_coefficient
      stone_radius slow_down_factor rotation_factor h]
  simp

/-- Witness for C6 at the empty tile list. -/
theorem compute_tile_effects_below_threshold_witness :
    (∀ t ∈ ([] : List (TileType × Vec2)),
      ratio_circle_area_inside_hexagon ⟨0, 0⟩ 15 t.2 (60 - 2) 60 < 0.01) ∧
    compute_tile_effects ⟨0, 0⟩ ⟨3, 4⟩ [] 60 0.0036 15 5 0.025 = ⟨3, 4⟩ :=
  ⟨by simp,
    compute_tile_effects_below_threshold ⟨0, 0⟩ ⟨3, 4⟩ [] 60 0.0036 15 5 0.025
      (by simp)⟩

/-! ## C7: the final drag factor -/

/-- C7: the multiplicative factor applied in the final drag step of
`compute_tile_effects` always lies in [0,1]: the returned velocity is a
nonnegative scalar multiple (at most 1) of the post-rotation velocity, so
drag can shrink the velocity to zero but never reverses its direction. -/
theorem compute_tile_effects_drag_factor (stone_pos velocity : Vec2)
    (tiles : List (TileType × Vec2))
    (hex_radius drag_coefficient stone_radius slow_down_factor
      rotation_factor : ℝ) :
    ∃ c : ℝ, 0 ≤ c ∧ c ≤ 1 ∧
      compute_tile_effects stone_pos velocity tiles hex_radius
          drag_coefficient stone_radius slow_down_factor rotation_factor =
        c • apply_rotation
          (tile_loop stone_pos velocity tiles hex_radius drag_coefficient
            stone_radius slow_down_factor rotation_factor).2.1
          (tile_loop stone_pos velocity tiles hex_radius drag_coefficient
            stone_radius slow_down_factor rotation_factor).1 := by
  rw [compute_tile_effects, apply_drag]
  split_ifs with h
  · refine ⟨max 0 (1 - (tile_loop stone_pos velocity tiles hex_radius
      drag_coefficient stone_radius slow_down_factor rotation_factor).2.2),
      le_max_left _ _, ?_, rfl⟩
    exact max_le (by norm_num) (by linarith)
  · exact ⟨1, by norm_num, le_refl 1, by rw [Vec2.one_smul_eq]⟩

/-! ## C10: tile effects never increase speed when no Goal tile is present -/

theorem hex_edge_normal_length_squared_le (rel : Vec2) :
    (hex_edge_normal rel).length_squared ≤ 1 := by
  rw [hex_edge_normal]
  have h5 : min (Nat.floor ((if atan2 rel.y rel.x < 0 then
      atan2 rel.y rel.x + 2 * Real.pi else atan2 rel.y rel.x) /
        (Real.pi / 3))) 5 ≤ 5 := min_le_right _ _
  set sector := min (Nat.floor ((if atan2 rel.y rel.x < 0 then
      atan2 rel.y rel.x + 2 * Real.pi else atan2 rel.y rel.x) /
        (Real.pi / 3))) 5 with hs
  interval_cases sector <;>
    norm_num [hexEdgeNormals, Vec2.length_squared]

theorem reflect_length_squared_le (w n : Vec2) (hn : n.length_squared ≤ 1) :
    (w - (2 * w.dot n) • n).length_squared ≤ w.length_squared := by
  rw [Vec2.length_squared] at hn ⊢
  rw [Vec2.dot]
  simp only [Vec2.sub_x, Vec2.sub_y, Vec2.smul_x, Vec2.smul_y]
  have key : (w.x - 2 * (w.x * n.x + w.y * n.y) * n.x) ^ 2 +
      (w.y - 2 * (w.x * n.x + w.y * n.y) * n.y) ^ 2 =
      (w.x ^ 2 + w.y ^ 2) -
        4 * (w.x * n.x + w.y * n.y) ^ 2 * (1 - (n.x ^ 2 + n.y ^ 2)) := by
    ring
  rw [key, Vec2.length_squared]
  have hpos : 0 ≤ 4 * (w.x * n.x + w.y * n.y) ^ 2 * (1 - (n.x ^ 2 + n.y ^ 2)) :=
    mul_nonneg (by positivity) (by linarith)
  linarith

theorem tile_effect_step_length_le (stone_pos : Vec2)
    (hex_radius drag_coefficient stone_radius slow_down_factor
      rotation_factor : ℝ) (st : Vec2 × ℝ × ℝ) (tile : TileType × Vec2)
    (hgoal : tile.1 ≠ TileType.goal) :
    (tile_effect_step stone_pos hex_radius drag_coefficient stone_radius
      slow_down_factor rotation_factor st tile).1.length ≤ st.1.length := by
  rw [tile_effect_step]
  split_ifs with hr
  · exact le_refl _
  · cases htt : tile.1 with
    | goal => exact absurd htt hgoal
    | maintainSpeed => exact le_refl _
    | slowDown => exact le_refl _
    | turnCounterclockwise => exact le_refl _
    | turnClockwise => exact le_refl _
    | wall =>
        simp only
        split_ifs with hd hs
        · have hlen : (st.1 - (2 * st.1.dot (hex_edge_normal
              (stone_pos - tile.2))) • hex_edge_normal
                (stone_pos - tile.2)).length > 0 := by
            have : (1e-10 : ℝ) > 0 := by norm_num
            linarith
          rw [Vec2.length_smul,
            abs_of_nonneg (div_nonneg (Vec2.length_nonneg _) hlen.le),
            div_mul_cancel₀ _ hlen.ne']
        · exact Vec2.length_le_of_length_squared_le
            (reflect_length_squared_le st.1 _
              (hex_edge_normal_length_squared_le _))
        · exact le_refl _

theorem tile_fold_length_le (stone_pos : Vec2)
    (hex_radius drag_coefficient stone_radius slow_down_factor
      rotation_factor : ℝ) (tiles : List (TileType × Vec2))
    (st : Vec2 × ℝ × ℝ)
    (h : ∀ t ∈ tiles, t.1 ≠ TileType.goal) :
    (tiles.foldl (tile_effect_step stone_pos hex_radius drag_coefficient
      stone_radius slow_down_factor rotation_factor) st).1.length ≤
      st.1.length := by
  induction tiles generalizing st with
  | nil => exact le_refl _
  | cons t ts ih =>
      rw [List.foldl_cons]
      exact le_trans
        (ih _ fun u hu => h u (by simp [hu]))
        (tile_effect_step_length_le stone_pos hex_radius drag_coefficient
          stone_radius slow_down_factor rotation_factor st t (h t (by simp)))

theorem apply_rotation_length (angle : ℝ) (v : Vec2) :
    (apply_rotation angle v).length = v.length := by
  rw [apply_rotation]
  split_ifs with h
  · rw [Vec2.length, Vec2.length, Vec2.length_squared, Vec2.length_squared]
    congr 1
    simp only
    linear_combination (v.x ^ 2 + v.y ^ 2) * Real.sin_sq_add_cos_sq angle
  · rfl

theorem apply_drag_length_le (total_drag : ℝ) (v : Vec2) :
    (apply_drag total_drag v).length ≤ v.length := by
  rw [apply_drag]
  split_ifs with h
  · rw [Vec2.length_smul, abs_of_nonneg (le_max_left _ _)]
    exact mul_le_of_le_one_left (Vec2.length_nonneg v)
      (max_le (by norm_num) (by linarith))
  · exact le_refl _

/-- C10: for any call of `compute_tile_effects` whose tile list contains no
Goal tile, the returned velocity's magnitude never exceeds the input
velocity's magnitude. -/
theorem compute_tile_effects_no_goal_speed_le (stone_pos velocity : Vec2)
    (tiles : List (TileType × Vec2))
    (hex_radius drag_coefficient stone_radius slow_down_factor
      rotation_factor : ℝ)
    (h : ∀ t ∈ tiles, t.1 ≠ TileType.goal) :
    (compute_tile_effects stone_pos velocity tiles hex_radius
      drag_coefficient stone_radius slow_down_factor
        rotation_factor).length ≤ velocity.length := by
  rw [compute_tile_effects]
  refine le_trans (apply_drag_length_le _ _) ?_
  rw [apply_rotation_length]
  rw [tile_loop]
  exact tile_fold_length_le stone_pos hex_radius drag_coefficient
    stone_radius slow_down_factor rotation_factor tiles (velocity, 0, 0) h

/-- Witness for C10 at the empty tile list. -/
theorem compute_tile_effects_no_goal_speed_le_witness :
    (∀ t ∈ ([] : List (TileType × Vec2)), t.1 ≠ TileType.goal) ∧
    (compute_tile_effects ⟨0, 0⟩ ⟨3, 4⟩ [] 60 0.0036 15 5 0.025).length ≤
      (Vec2.mk 3 4).length :=
  ⟨by simp,
    compute_tile_effects_no_goal_speed_le ⟨0, 0⟩ ⟨3, 4⟩ [] 60 0.0036 15 5
      0.025 (by simp)⟩

/-! ## C5: goal snap terminates a tick at the goal center -/

theorem vec2_dot_zero_left (n : Vec2) : (0 : Vec2).dot n = 0 := by
  rw [Vec2.dot]
  simp

theorem apply_rotation_zero_vec (angle : ℝ) : apply_rotation angle 0 = 0 := by
  rw [apply_rotation]
  split_ifs with h
  · ext <;> simp
  · rfl

theorem apply_drag_zero_vec (total_drag : ℝ) : apply_drag total_drag 0 = 0 := by
  rw [apply_drag]
  split_ifs with h
  · exact Vec2.smul_zero_eq _
  · rfl

theorem tile_effect_step_zero_vel (stone_pos : Vec2)
    (hex_radius drag_coefficient stone_radius slow_down_factor
      rotation_factor : ℝ) (st : Vec2 × ℝ × ℝ) (tile : TileType × Vec2)
    (hz : st.1 = 0) (hgoal : tile.1 = TileType.goal → tile.2 = stone_pos) :
    (tile_effect_step stone_pos hex_radius drag_coefficient stone_radius
      slow_down_factor rotation_factor st tile).1 = 0 := by
  rw [tile_effect_step]
  split_ifs with hr
  · exact hz
  · cases htt : tile.1 with
    | maintainSpeed => exact hz
    | slowDown => exact hz
    | turnCounterclockwise => exact hz
    | turnClockwise => exact hz
    | wall =>
        simp only
        rw [if_neg]
        · exact hz
        · rw [hz, vec2_dot_zero_left]
          norm_num
    | goal =>
        have hc : tile.2 = stone_pos := hgoal htt
        simp only
        rw [if_neg]
        · exact hz
        · have : tile.2 - stone_pos = 0 := by rw [hc]; ext <;> simp
          rw [this, Vec2.length_zero]
          norm_num

theorem compute_tile_effects_zero_vel (stone_pos : Vec2)
    (tiles : List (TileType × Vec2))
    (hex_radius drag_coefficient stone_radius slow_down_factor
      rotation_factor : ℝ)
    (h : ∀ t ∈ tiles, t.1 = TileType.goal → t.2 = stone_pos) :
    compute_tile_effects stone_pos 0 tiles hex_radius drag_coefficient
      stone_radius slow_down_factor rotation_factor = 0 := by
  have hfold : ∀ (l : List (TileType × Vec2)) (st : Vec2 × ℝ × ℝ),
      (∀ t ∈ l, t.1 = TileType.goal → t.2 = stone_pos) → st.1 = 0 →
      (l.foldl (tile_effect_step stone_pos hex_radius drag_coefficient
        stone_radius slow_down_factor rotation_factor) st).1 = 0 := by
    intro l
    induction l with
    | nil => exact fun st _ hz => hz
    | cons t ts ih =>
        intro st hl hz
        rw [List.foldl_cons]
        exact ih _ (fun u hu => hl u (by simp [hu]))
          (tile_effect_step_zero_vel stone_pos hex_radius drag_coefficient
            stone_radius slow_down_factor rotation_factor st t hz
            (hl t (by simp)))
  rw [compute_tile_effects, tile_loop]
  rw [hfold tiles (0, 0, 0) h rfl]
  rw [apply_rotation_zero_vec, apply_drag_zero_vec]

theorem collide_pair_step_length (st : List StoneState) (jk : ℕ × ℕ) :
    (collide_pair_step st jk).length = st.length := by
  rw [collide_pair_step]
  split
  · simp
  · rfl

theorem apply_stone_collision_length (stones : List StoneState) :
    (apply_stone_collision stones).length = stones.length := by
  rw [apply_stone_collision]
  generalize stone_pairs stones.length = ps
  induction ps generalizing stones with
  | nil => rfl
  | cons p ps ih =>
      rw [List.foldl_cons, ih, collide_pair_step_length]

theorem getD_map_of_lt (f : StoneState → StoneState) (l : List StoneState)
    (i : ℕ) (hi : i < l.length) :
    (l.map f).getD i ⟨0, 0, 0⟩ = f (l.getD i ⟨0, 0, 0⟩) := by
  rw [List.getD_eq_getElem _ _ (by simpa using hi),
    List.getD_eq_getElem _ _ hi, List.getElem_map]

/-- C5: if, after the position-update phase of a tick, a stone is within
`snapDistance` of the goal center and its speed is below `snapVelocity`,
then after the tick completes (tile-effect phase included) the stone sits
exactly at the goal center with velocity zero.  All Goal tiles are assumed
to share the single goal center the snap targets. -/
theorem live_tick_goal_snap (tiles : List (TileType × Vec2))
    (hex_radius drag_coefficient slow_down_factor rotation_factor
      dt snap_distance snap_velocity : ℝ) (stones : List StoneState)
    (i : ℕ) (g : Vec2) (s : StoneState)
    (hi : i < stones.length)
    (hs : (apply_stone_collision stones).getD i ⟨0, 0, 0⟩ = s)
    (hg : goal_pos_of tiles = some g)
    (hall : ∀ t ∈ tiles, t.1 = TileType.goal → t.2 = g)
    (hd : (s.pos + dt • s.vel).distance g < snap_distance)
    (hv : s.vel.length < snap_velocity) :
    ((live_tick tiles hex_radius drag_coefficient slow_down_factor
        rotation_factor dt snap_distance snap_velocity stones).getD i
      ⟨0, 0, 0⟩).pos = g ∧
    ((live_tick tiles hex_radius drag_coefficient slow_down_factor
        rotation_factor dt snap_distance snap_velocity stones).getD i
      ⟨0, 0, 0⟩).vel = 0 := by
  have hlc : i < (apply_stone_collision stones).length := by
    rw [apply_stone_collision_length]; exact hi
  have hlu : i < (update_stone_position tiles dt snap_distance snap_velocity
      (apply_stone_collision stones)).length := by
    rw [update_stone_position, List.length_map]; exact hlc
  have hstep : update_stone_position_step tiles dt snap_distance
      snap_velocity s = ⟨g, 0, s.radius⟩ := by
    rw [update_stone_position_step, hg]
    show (if (s.pos + dt • s.vel).distance g < snap_distance ∧
        s.vel.length < snap_velocity then (⟨g, 0, s.radius⟩ : StoneState)
      else ⟨s.pos + dt • s.vel, s.vel, s.radius⟩) = ⟨g, 0, s.radius⟩
    exact if_pos ⟨hd, hv⟩
  rw [live_tick, apply_tile_velocity_effects,
    getD_map_of_lt _ _ i hlu, update_stone_position,
    getD_map_of_lt _ _ i hlc, hs, hstep]
  constructor
  · rfl
  · exact compute_tile_effects_zero_vel g tiles hex_radius drag_coefficient
      s.radius slow_down_factor rotation_factor hall

/-- Witness for C5: a single slow stone near a single goal tile at the
origin snaps onto it in one tick. -/
theorem live_tick_goal_snap_witness :
    (Vec2.mk 10 0 + (1 : ℝ) • (0 : Vec2)).distance ⟨0, 0⟩ < 40 ∧
    (0 : Vec2).length < 40 ∧
    ((live_tick [(TileType.goal, ⟨0, 0⟩)] 60 0.0036 5 0.025 1 40 40
        [⟨⟨10, 0⟩, 0, 15⟩]).getD 0 ⟨0, 0, 0⟩).pos = ⟨0, 0⟩ ∧
    ((live_tick [(TileType.goal, ⟨0, 0⟩)] 60 0.0036 5 0.025 1 40 40
        [⟨⟨10, 0⟩, 0, 15⟩]).getD 0 ⟨0, 0, 0⟩).vel = 0 := by
  have hd : (Vec2.mk 10 0 + (1 : ℝ) • (0 : Vec2)).distance ⟨0, 0⟩ < 40 := by
    rw [Vec2.distance, Vec2.length]
    have hx : (Vec2.mk 10 0 + (1 : ℝ) • (0 : Vec2)) - ⟨0, 0⟩ = ⟨10, 0⟩ := by
      ext <;> simp
    rw [hx]
    show Real.sqrt (10 ^ 2 + 0 ^ 2) < 40
    rw [show (10 : ℝ) ^ 2 + 0 ^ 2 = 10 ^ 2 by ring,
      Real.sqrt_sq (by norm_num : (0 : ℝ) ≤ 10)]
    norm_num
  have hv : (0 : Vec2).length < 40 := by
    rw [Vec2.length_zero]; norm_num
  obtain ⟨h1, h2⟩ := live_tick_goal_snap [(TileType.goal, ⟨0, 0⟩)]
    60 0.0036 5 0.025 1 40 40 [⟨⟨10, 0⟩, 0, 15⟩] 0 ⟨0, 0⟩ ⟨⟨10, 0⟩, 0, 15⟩
    (by norm_num) rfl rfl
    (by rintro t ht _; simp only [List.mem_singleton] at ht; rw [ht])
    hd hv
  exact ⟨hd, hv, h1, h2⟩

/-! ## C1: predictor step versus live tick -/

theorem apply_stone_collision_singleton (s : StoneState) :
    apply_stone_collision [s] = [s] := rfl

/-- C1 counterexample: a slow stone near the goal is hard-snapped onto the
goal center by the live tick's `update_stone_position`, but
`simulate_trajectories` has no snap phase, so one predictor step and one
live tick differ on the same state. -/
theorem simulate_step_ne_live_tick :
    simulate_trajectories_step [(TileType.goal, ⟨0, 0⟩)] 60 0.0036 5 0.025 1
        [⟨⟨10, 0⟩, 0, 15⟩] ≠
      live_tick [(TileType.goal, ⟨0, 0⟩)] 60 0.0036 5 0.025 1 40 40
        [⟨⟨10, 0⟩, 0, 15⟩] := by
  intro hEq
  have hg : goal_pos_of [(TileType.goal, ⟨0, 0⟩)] = some ⟨0, 0⟩ := rfl
  have hd : (Vec2.mk 10 0 + (1 : ℝ) • (0 : Vec2)).distance ⟨0, 0⟩ < 40 := by
    rw [Vec2.distance, Vec2.length]
    have hx : (Vec2.mk 10 0 + (1 : ℝ) • (0 : Vec2)) - ⟨0, 0⟩ = ⟨10, 0⟩ := by
      ext <;> simp
    rw [hx]
    show Real.sqrt (10 ^ 2 + 0 ^ 2) < 40
    rw [show (10 : ℝ) ^ 2 + 0 ^ 2 = 10 ^ 2 by ring,
      Real.sqrt_sq (by norm_num : (0 : ℝ) ≤ 10)]
    norm_num
  have hv : (0 : Vec2).length < 40 := by
    rw [Vec2.length_zero]; norm_num
  have hx := congrArg (fun l => ((l.getD 0 ⟨0, 0, 0⟩).pos).x) hEq
  simp only [simulate_trajectories_step, live_tick,
    apply_stone_collision_singleton, update_stone_position,
    apply_tile_velocity_effects, List.map_cons, List.map_nil,
    update_stone_position_step, hg] at hx
  rw [if_pos ⟨hd, hv⟩] at hx
  simp only [List.getD_cons_zero] at hx
  norm_num at hx

/-- C1 (amended): one step of `simulate_trajectories` computes the identical
state transition as one live `FixedUpdate` tick, provided no stone satisfies
the goal-snap condition at its post-move position (in particular whenever
there is no Goal tile); the live tick's `update_stone_position` additionally
hard-snaps such stones to the goal center, which the predictor omits. -/
theorem simulate_step_eq_live_tick (tiles : List (TileType × Vec2))
    (hex_radius drag_coefficient slow_down_factor rotation_factor dt
      snap_distance snap_velocity : ℝ) (stones : List StoneState)
    (h : ∀ s ∈ apply_stone_collision stones, ∀ g, goal_pos_of tiles = some g →
      ¬((s.pos + dt • s.vel).distance g < snap_distance ∧
        s.vel.length < snap_velocity)) :
    simulate_trajectories_step tiles hex_radius drag_coefficient
        slow_down_factor rotation_factor dt stones =
      live_tick tiles hex_radius drag_coefficient slow_down_factor
        rotation_factor dt snap_distance snap_velocity stones := by
  rw [simulate_trajectories_step, live_tick]
  congr 1
  rw [update_stone_position]
  apply List.map_congr_left
  intro s hsmem
  cases hgp : goal_pos_of tiles with
  | none =>
      rw [update_stone_position_step, hgp]
  | some g =>
      rw [update_stone_position_step, hgp]
      show (⟨s.pos + dt • s.vel, s.vel, s.radius⟩ : StoneState) =
        if (s.pos + dt • s.vel).distance g < snap_distance ∧
            s.vel.length < snap_velocity then ⟨g, 0, s.radius⟩
          else ⟨s.pos + dt • s.vel, s.vel, s.radius⟩
      rw [if_neg (h s hsmem g hgp)]

/-- Witness for C1 (amended) on a goal-free board. -/
theorem simulate_step_eq_live_tick_witness :
    (∀ s ∈ apply_stone_collision [(⟨⟨1, 2⟩, ⟨3, 4⟩, 15⟩ : StoneState)],
      ∀ g : Vec2, goal_pos_of ([] : List (TileType × Vec2)) = some g →
      ¬((s.pos + (1 : ℝ) • s.vel).distance g < 40 ∧ s.vel.length < 40)) ∧
    simulate_trajectories_step [] 60 0.0036 5 0.025 1
        [⟨⟨1, 2⟩, ⟨3, 4⟩, 15⟩] =
      live_tick [] 60 0.0036 5 0.025 1 40 40 [⟨⟨1, 2⟩, ⟨3, 4⟩, 15⟩] := by
  have h : ∀ s ∈ apply_stone_collision [(⟨⟨1, 2⟩, ⟨3, 4⟩, 15⟩ : StoneState)],
      ∀ g : Vec2, goal_pos_of ([] : List (TileType × Vec2)) = some g →
      ¬((s.pos + (1 : ℝ) • s.vel).distance g < 40 ∧ s.vel.length < 40) := by
    intro s _ g hg
    simp [goal_pos_of] at hg
  exact ⟨h, simulate_step_eq_live_tick [] 60 0.0036 5 0.025 1 40 40
    [⟨⟨1, 2⟩, ⟨3, 4⟩, 15⟩] h⟩

/-! ## C3: the sweep budget is conserved by drag redistribution -/

theorem take_available_sum (target : TileTypeSpec) (r : ℝ)
    (es : List (TileTypeSpec × ℝ)) :
    (take_available target r es).1 +
      (List.map Prod.snd (take_available target r es).2).sum =
    (List.map Prod.snd es).sum := by
  induction es generalizing r with
  | nil => simp [take_available]
  | cons e es ih =>
      rw [take_available]
      split_ifs with he
      · simp only [List.map_cons, List.sum_cons]
        have := ih r
        linarith
      · simp only [List.map_cons, List.sum_cons]
        have := ih (r - max 0 (min r e.2))
        linarith

theorem take_available_keys (target : TileTypeSpec) (r : ℝ)
    (es : List (TileTypeSpec × ℝ)) :
    List.map Prod.fst (take_available target r es).2 =
      List.map Prod.fst es := by
  induction es generalizing r with
  | nil => simp [take_available]
  | cons e es ih =>
      rw [take_available]
      split_ifs with he <;> simp only [List.map_cons] <;> rw [ih]

theorem take_available_nonneg (target : TileTypeSpec) (r : ℝ)
    (es : List (TileTypeSpec × ℝ)) (hr : 0 ≤ r)
    (hes : ∀ e ∈ es, 0 ≤ e.2) :
    0 ≤ (take_available target r es).1 ∧
      ∀ e ∈ (take_available target r es).2, 0 ≤ e.2 := by
  induction es generalizing r with
  | nil => simp [take_available]
  | cons e es ih =>
      rw [take_available]
      split_ifs with he
      · obtain ⟨h1, h2⟩ := ih r hr fun u hu => hes u (by simp [hu])
        refine ⟨h1, ?_⟩
        intro u hu
        rcases List.mem_cons.mp hu with h | h
        · rw [h]; exact hes e (by simp)
        · exact h2 u h
      · dsimp only
        have htake : 0 ≤ max 0 (min r e.2) := le_max_left _ _
        have htake_r : max 0 (min r e.2) ≤ r :=
          max_le hr (min_le_left _ _)
        have htake_v : max 0 (min r e.2) ≤ e.2 :=
          max_le (hes e (by simp)) (min_le_right _ _)
        obtain ⟨h1, h2⟩ := ih (r - max 0 (min r e.2)) (by linarith)
          fun u hu => hes u (by simp [hu])
        refine ⟨by linarith, ?_⟩
        intro u hu
        rcases List.mem_cons.mp hu with h | h
        · rw [h]; dsimp only; linarith
        · exact h2 u h

theorem add_to_first_sum (target : TileTypeSpec) (amt : ℝ)
    (l : List (TileTypeSpec × ℝ)) (hmem : target ∈ List.map Prod.fst l) :
    (List.map Prod.snd (add_to_first target amt l)).sum =
      (List.map Prod.snd l).sum + amt := by
  induction l with
  | nil => simp at hmem
  | cons e es ih =>
      rw [add_to_first]
      split_ifs with he
      · simp only [List.map_cons, List.sum_cons]
        ring
      · have hmem' : target ∈ List.map Prod.fst es := by
          rcases List.mem_map.mp hmem with ⟨u, hu, hufst⟩
          rcases List.mem_cons.mp hu with h | h
          · exact absurd (h ▸ hufst) he
          · exact List.mem_map.mpr ⟨u, h, hufst⟩
        simp only [List.map_cons, List.sum_cons, ih hmem']
        ring

theorem add_to_first_nonneg (target : TileTypeSpec) (amt : ℝ)
    (l : List (TileTypeSpec × ℝ)) (hamt : 0 ≤ amt)
    (hl : ∀ e ∈ l, 0 ≤ e.2) :
    ∀ e ∈ add_to_first target amt l, 0 ≤ e.2 := by
  induction l with
  | nil => simp [add_to_first]
  | cons e es ih =>
      rw [add_to_first]
      split_ifs with he
      · intro u hu
        rcases List.mem_cons.mp hu with h | h
        · rw [h]
          have := hl e (by simp)
          simp only
          linarith
        · exact hl u (by simp [h])
      · intro u hu
        rcases List.mem_cons.mp hu with h | h
        · rw [h]; exact hl e (by simp)
        · exact ih (fun v hv => hl v (by simp [hv])) u h

theorem drag_redistribute_total (st : TileDragState) (target : TileTypeSpec)
    (amount : ℝ) :
    (drag_redistribute st target amount).total = st.total := by
  rw [drag_redistribute]
  split_ifs with hmem
  · rw [TileDragState.total, TileDragState.total,
      add_to_first_sum target _ _ (by rw [take_available_keys]; exact hmem)]
    have := take_available_sum target (max 0 amount) st
    linarith
  · rfl

theorem drag_redistribute_nonneg (st : TileDragState) (target : TileTypeSpec)
    (amount : ℝ) (hst : ∀ e ∈ st, 0 ≤ e.2) :
    ∀ e ∈ drag_redistribute st target amount, 0 ≤ e.2 := by
  rw [drag_redistribute]
  split_ifs with hmem
  · obtain ⟨h1, h2⟩ := take_available_nonneg target (max 0 amount) st
      (le_max_left _ _) hst
    exact add_to_first_nonneg target _ _ h1 h2
  · exact hst

/-- C3: the sweep-distance values of a `TileDragState` keep summing to the
tile's fixed full-sweep budget under any sequence of drag-redistribution
calls, and every value stays nonnegative and never exceeds that budget. -/
theorem tile_drag_state_budget_invariant (st : TileDragState)
    (ops : List (TileTypeSpec × ℝ)) (hnn : ∀ e ∈ st, 0 ≤ e.2) :
    (ops.foldl (fun s op => drag_redistribute s op.1 op.2) st).total =
        st.total ∧
      ∀ e ∈ ops.foldl (fun s op => drag_redistribute s op.1 op.2) st,
        0 ≤ e.2 ∧ e.2 ≤ st.total := by
  induction ops generalizing st with
  | nil =>
      refine ⟨rfl, fun e he => ⟨hnn e he, ?_⟩⟩
      exact List.single_le_sum (fun x hx => by
          obtain ⟨u, hu, rfl⟩ := List.mem_map.mp hx
          exact hnn u hu) _
        (List.mem_map_of_mem Prod.snd he)
  | cons op ops ih =>
      rw [List.foldl_cons]
      obtain ⟨h1, h2⟩ := ih (drag_redistribute st op.1 op.2)
        (drag_redistribute_nonneg st op.1 op.2 hnn)
      rw [drag_redistribute_total] at h1 h2
      exact ⟨h1, h2⟩

/-- Witness for C3: a state holding the whole budget 10 and two drags. -/
theorem tile_drag_state_budget_invariant_witness :
    (∀ e ∈ ([(TileTypeSpec.maintainSpeed, (0 : ℝ)),
        (TileTypeSpec.slowDown, 10)] : TileDragState), 0 ≤ e.2) ∧
    (TileDragState.total
        (([(TileTypeSpec.maintainSpeed, (4 : ℝ)),
          (TileTypeSpec.maintainSpeed, 20)] : List (TileTypeSpec × ℝ)).foldl
          (fun s op => drag_redistribute s op.1 op.2)
          [(TileTypeSpec.maintainSpeed, 0), (TileTypeSpec.slowDown, 10)]) =
      TileDragState.total [(TileTypeSpec.maintainSpeed, (0 : ℝ)),
        (TileTypeSpec.slowDown, 10)] ∧
      ∀ e ∈ ([(TileTypeSpec.maintainSpeed, (4 : ℝ)),
          (TileTypeSpec.maintainSpeed, 20)] : List (TileTypeSpec × ℝ)).foldl
        (fun s op => drag_redistribute s op.1 op.2)
        [(TileTypeSpec.maintainSpeed, 0), (TileTypeSpec.slowDown, 10)],
        0 ≤ e.2 ∧ e.2 ≤ TileDragState.total
          [(TileTypeSpec.maintainSpeed, (0 : ℝ)),
            (TileTypeSpec.slowDown, 10)]) := by
  have hnn : ∀ e ∈ ([(TileTypeSpec.maintainSpeed, (0 : ℝ)),
      (TileTypeSpec.slowDown, 10)] : TileDragState), 0 ≤ e.2 := by
    intro e he
    rcases List.mem_cons.mp he with h | h
    · rw [h]
    · simp only [List.mem_singleton] at h
      rw [h]; norm_num
  exact ⟨hnn, tile_drag_state_budget_invariant _ _ hnn⟩

/-! ## C8: the SpeedUp variant -/

/-- C8: the spec's `TileType` is a closed tagged variant including
`SpeedUp(direction)`, and for a `SpeedUp` tile the per-variant effect of
`computeTileEffects` applies the same attraction a `Goal` tile applies when
the stone is further than `gridHexRadius/4` from the tile center, and
otherwise snaps the velocity to `direction * speedUpFactor` (a
discontinuous launch, not additive). -/
theorem tile_type_speed_up_behaviour (grid_hex_radius drag_coefficient
    slow_down_factor rotation_factor speed_up_factor : ℝ)
    (stone_pos tile_pos : Vec2) (direction : Facing)
    (weight weighted_ratio : ℝ) (st : Vec2 × ℝ × ℝ) :
    (∀ t : TileTypeSpec, t = .wall ∨ t = .maintainSpeed ∨ t = .slowDown ∨
      t = .turnCounterclockwise ∨ t = .turnClockwise ∨ t = .goal ∨
      ∃ d, t = .speedUp d) ∧
    (stone_pos.distance tile_pos > grid_hex_radius / 4 →
      spec_apply_variant grid_hex_radius drag_coefficient slow_down_factor
          rotation_factor speed_up_factor stone_pos tile_pos
          (.speedUp direction) weight weighted_ratio st =
        ((spec_apply_variant grid_hex_radius drag_coefficient
          slow_down_factor rotation_factor speed_up_factor stone_pos
          tile_pos .goal weight weighted_ratio st).1, st.2.1, st.2.2)) ∧
    (¬ stone_pos.distance tile_pos > grid_hex_radius / 4 →
      spec_apply_variant grid_hex_radius drag_coefficient slow_down_factor
          rotation_factor speed_up_factor stone_pos tile_pos
          (.speedUp direction) weight weighted_ratio st =
        (speed_up_factor • direction.to_vector, st.2.1, st.2.2)) := by
  refine ⟨fun t => ?_, fun hfar => ?_, fun hnear => ?_⟩
  · cases t <;> simp
  · simp only [spec_apply_variant]
    rw [if_pos hfar]
  · simp only [spec_apply_variant]
    rw [if_neg hnear]

/-- Witness for C8 in the attraction zone: the stone at the origin is at
distance 5 from a SpeedUp tile at (3,4), beyond `gridHexRadius/4 = 1`. -/
theorem tile_type_speed_up_behaviour_witness :
    Vec2.distance ⟨0, 0⟩ ⟨3, 4⟩ > 4 / 4 ∧
    spec_apply_variant 4 0.0036 5 0.025 250 ⟨0, 0⟩ ⟨3, 4⟩
        (.speedUp .up) 1 0.5 (⟨7, 0⟩, 0, 0) =
      ((spec_apply_variant 4 0.0036 5 0.025 250 ⟨0, 0⟩ ⟨3, 4⟩ .goal 1 0.5
        (⟨7, 0⟩, 0, 0)).1, (0 : ℝ), (0 : ℝ)) := by
  have hdist : Vec2.distance ⟨0, 0⟩ ⟨3, 4⟩ > 4 / 4 := by
    rw [Vec2.distance, Vec2.length]
    have hx : (Vec2.mk 0 0 - ⟨3, 4⟩) = ⟨-3, -4⟩ := by
      ext <;> norm_num
    rw [hx]
    show Real.sqrt ((-3 : ℝ) ^ 2 + (-4 : ℝ) ^ 2) > 4 / 4
    rw [show ((-3 : ℝ)) ^ 2 + (-4 : ℝ) ^ 2 = 5 ^ 2 by norm_num,
      Real.sqrt_sq (by norm_num : (0 : ℝ) ≤ 5)]
    norm_num
  exact ⟨hdist, (tile_type_speed_up_behaviour 4 0.0036 5 0.025 250 ⟨0, 0⟩
    ⟨3, 4⟩ .up 1 0.5 (⟨7, 0⟩, 0, 0)).2.1 hdist⟩

/-! ## C9: evaluation of the overlap area at concrete inputs

The monotonicity question is probed at samples = 4 where the circle polygon
is an axis-aligned diamond with rational vertices. -/

theorem sqrt_three_ge_one : (1 : ℝ) ≤ Real.sqrt 3 := by
  rw [show (1 : ℝ) = Real.sqrt 1 by rw [Real.sqrt_one]]
  exact Real.sqrt_le_sqrt (by norm_num)

theorem sqrt_three_le_two : Real.sqrt 3 ≤ 2 := by
  rw [show (2 : ℝ) = Real.sqrt 4 by
    rw [show (4 : ℝ) = 2 ^ 2 by norm_num, Real.sqrt_sq (by norm_num : (0:ℝ) ≤ 2)]]
  exact Real.sqrt_le_sqrt (by norm_num)

theorem clip_one_edge_all_inside (input : List Vec2) (es ee : Vec2)
    (h : ∀ p ∈ input, is_inside_edge p es ee) :
    clip_one_edge input es ee = input := by
  rw [clip_one_edge]
  have key : ∀ k ≤ input.length,
      (List.range k).foldl (fun output j =>
        let current := input.getD j 0
        let previous := input.getD ((j + input.length - 1) % input.length) 0
        let current_inside := is_inside_edge current es ee
        let previous_inside := is_inside_edge previous es ee
        if current_inside then
          (if ¬ previous_inside then
            match line_segment_intersection previous current es ee with
            | some ipt => output ++ [ipt]
            | none => output
          else output) ++ [current]
        else if previous_inside then
          match line_segment_intersection previous current es ee with
          | some ipt => output ++ [ipt]
          | none => output
        else output) [] = input.take k := by
    intro k
    induction k with
    | zero => intro _; simp
    | succ k ih =>
        intro hk
        rw [List.range_succ, List.foldl_append, List.foldl_cons,
          List.foldl_nil, ih (Nat.le_of_succ_le hk)]
        have hklt : k < input.length := hk
        have hcur : input.getD k 0 ∈ input := by
          rw [List.getD_eq_getElem _ _ hklt]
          exact List.getElem_mem _
        have hprev : input.getD ((k + input.length - 1) % input.length) 0
            ∈ input := by
          have hlen : 0 < input.length := Nat.lt_of_le_of_lt (Nat.zero_le k) hklt
          have : (k + input.length - 1) % input.length < input.length :=
            Nat.mod_lt _ hlen
          rw [List.getD_eq_getElem _ _ this]
          exact List.getElem_mem _
        rw [if_pos (h _ hcur), if_neg (not_not_intro (h _ hprev))]
        rw [← List.take_concat_get _ _ hklt, List.concat_eq_append,
          List.getD_eq_getElem _ _ hklt]
  rw [key input.length le_rfl, List.take_length]

theorem hexagon_points_hundred :
    hexagon_points 100 ⟨0, 0⟩ =
      [⟨100, 0⟩, ⟨50, 50 * Real.sqrt 3⟩, ⟨-50, 50 * Real.sqrt 3⟩,
       ⟨-100, 0⟩, ⟨-50, -(50 * Real.sqrt 3)⟩, ⟨50, -(50 * Real.sqrt 3)⟩] := by
  have hc0 : Real.cos (Real.pi / 3 * 0) = 1 := by
    rw [mul_zero, Real.cos_zero]
  have hs0 : Real.sin (Real.pi / 3 * 0) = 0 := by
    rw [mul_zero, Real.sin_zero]
  have hc1 : Real.cos (Real.pi / 3 * 1) = 1 / 2 := by
    rw [mul_one, Real.cos_pi_div_three]
  have hs1 : Real.sin (Real.pi / 3 * 1) = Real.sqrt 3 / 2 := by
    rw [mul_one, Real.sin_pi_div_three]
  have hc2 : Real.cos (Real.pi / 3 * 2) = -(1 / 2) := by
    rw [show Real.pi / 3 * 2 = Real.pi - Real.pi / 3 by ring,
      Real.cos_pi_sub, Real.cos_pi_div_three]
  have hs2 : Real.sin (Real.pi / 3 * 2) = Real.sqrt 3 / 2 := by
    rw [show Real.pi / 3 * 2 = Real.pi - Real.pi / 3 by ring,
      Real.sin_pi_sub, Real.sin_pi_div_three]
  have hc3 : Real.cos (Real.pi / 3 * 3) = -1 := by
    rw [show Real.pi / 3 * 3 = Real.pi by ring, Real.cos_pi]
  have hs3 : Real.sin (Real.pi / 3 * 3) = 0 := by
    rw [show Real.pi / 3 * 3 = Real.pi by ring, Real.sin_pi]
  have hc4 : Real.cos (Real.pi / 3 * 4) = -(1 / 2) := by
    rw [show Real.pi / 3 * 4 = Real.pi + Real.pi / 3 by ring,
      Real.cos_add, Real.cos_pi, Real.sin_pi, Real.cos_pi_div_three,
      Real.sin_pi_div_three]
    ring
  have hs4 : Real.sin (Real.pi / 3 * 4) = -(Real.sqrt 3 / 2) := by
    rw [show Real.pi / 3 * 4 = Real.pi + Real.pi / 3 by ring,
      Real.sin_add, Real.cos_pi, Real.sin_pi, Real.cos_pi_div_three,
      Real.sin_pi_div_three]
    ring
  have hc5 : Real.cos (Real.pi / 3 * 5) = 1 / 2 := by
    rw [show Real.pi / 3 * 5 = 2 * Real.pi - Real.pi / 3 by ring,
      Real.cos_sub, Real.cos_two_pi, Real.sin_two_pi, Real.cos_pi_div_three,
      Real.sin_pi_div_three]
    ring
  have hs5 : Real.sin (Real.pi / 3 * 5) = -(Real.sqrt 3 / 2) := by
    rw [show Real.pi / 3 * 5 = 2 * Real.pi - Real.pi / 3 by ring,
      Real.sin_sub, Real.cos_two_pi, Real.sin_two_pi, Real.cos_pi_div_three,
      Real.sin_pi_div_three]
    ring
  rw [hexagon_points, show List.range 6 = [0, 1, 2, 3, 4, 5] from rfl]
  simp only [List.map_cons, List.map_nil, Nat.cast_zero, Nat.cast_one,
    Nat.cast_ofNat]
  rw [hc0, hs0, hc1, hs1, hc2, hs2, hc3, hs3, hc4, hs4, hc5, hs5]
  norm_num
  all_goals ring

theorem circle_points_neg_ten :
    approximate_circle_points (-10) ⟨0, 0⟩ 4 =
      [⟨-10, 0⟩, ⟨0, -10⟩, ⟨10, 0⟩, ⟨0, 10⟩] := by
  have hc0 : Real.cos (2 * Real.pi * 0 / 4) = 1 := by
    rw [show 2 * Real.pi * 0 / 4 = (0 : ℝ) by ring, Real.cos_zero]
  have hs0 : Real.sin (2 * Real.pi * 0 / 4) = 0 := by
    rw [show 2 * Real.pi * 0 / 4 = (0 : ℝ) by ring, Real.sin_zero]
  have hc1 : Real.cos (2 * Real.pi * 1 / 4) = 0 := by
    rw [show 2 * Real.pi * 1 / 4 = Real.pi / 2 by ring, Real.cos_pi_div_two]
  have hs1 : Real.sin (2 * Real.pi * 1 / 4) = 1 := by
    rw [show 2 * Real.pi * 1 / 4 = Real.pi / 2 by ring, Real.sin_pi_div_two]
  have hc2 : Real.cos (2 * Real.pi * 2 / 4) = -1 := by
    rw [show 2 * Real.pi * 2 / 4 = Real.pi by ring, Real.cos_pi]
  have hs2 : Real.sin (2 * Real.pi * 2 / 4) = 0 := by
    rw [show 2 * Real.pi * 2 / 4 = Real.pi by ring, Real.sin_pi]
  have hc3 : Real.cos (2 * Real.pi * 3 / 4) = 0 := by
    rw [show 2 * Real.pi * 3 / 4 = 2 * Real.pi - Real.pi / 2 by ring,
      Real.cos_sub, Real.cos_two_pi, Real.sin_two_pi, Real.cos_pi_div_two,
      Real.sin_pi_div_two]
    ring
  have hs3 : Real.sin (2 * Real.pi * 3 / 4) = -1 := by
    rw [show 2 * Real.pi * 3 / 4 = 2 * Real.pi - Real.pi / 2 by ring,
      Real.sin_sub, Real.cos_two_pi, Real.sin_two_pi, Real.cos_pi_div_two,
      Real.sin_pi_div_two]
    ring
  rw [approximate_circle_points, show List.range 4 = [0, 1, 2, 3] from rfl]
  simp only [List.map_cons, List.map_nil, Nat.cast_zero, Nat.cast_one,
    Nat.cast_ofNat]
  rw [hc0, hs0, hc1, hs1, hc2, hs2, hc3, hs3]
  norm_num

theorem circle_points_zero_radius :
    approximate_circle_points 0 ⟨0, 0⟩ 4 = [⟨0, 0⟩, ⟨0, 0⟩, ⟨0, 0⟩, ⟨0, 0⟩] := by
  rw [approximate_circle_points, show List.range 4 = [0, 1, 2, 3] from rfl]
  simp only [List.map_cons, List.map_nil]
  norm_num

theorem clip_diamond_in_hexagon :
    clip_polygon_sutherland_hodgman
        [⟨-10, 0⟩, ⟨0, -10⟩, ⟨10, 0⟩, ⟨0, 10⟩] (hexagon_points 100 ⟨0, 0⟩) =
      [⟨-10, 0⟩, ⟨0, -10⟩, ⟨10, 0⟩, ⟨0, 10⟩] := by
  have h1 := sqrt_three_ge_one
  have h2 := sqrt_three_le_two
  have hedge0 : ∀ p ∈ [(⟨-10, 0⟩ : Vec2), ⟨0, -10⟩, ⟨10, 0⟩, ⟨0, 10⟩],
      is_inside_edge p ⟨100, 0⟩ ⟨50, 50 * Real.sqrt 3⟩ := by
    intro p hp
    fin_cases hp <;>
      (simp only [is_inside_edge, Vec2.sub_x, Vec2.sub_y]; nlinarith [h1, h2])
  have hedge1 : ∀ p ∈ [(⟨-10, 0⟩ : Vec2), ⟨0, -10⟩, ⟨10, 0⟩, ⟨0, 10⟩],
      is_inside_edge p ⟨50, 50 * Real.sqrt 3⟩ ⟨-50, 50 * Real.sqrt 3⟩ := by
    intro p hp
    fin_cases hp <;>
      (simp only [is_inside_edge, Vec2.sub_x, Vec2.sub_y]; nlinarith [h1, h2])
  have hedge2 : ∀ p ∈ [(⟨-10, 0⟩ : Vec2), ⟨0, -10⟩, ⟨10, 0⟩, ⟨0, 10⟩],
      is_inside_edge p ⟨-50, 50 * Real.sqrt 3⟩ ⟨-100, 0⟩ := by
    intro p hp
    fin_cases hp <;>
      (simp only [is_inside_edge, Vec2.sub_x, Vec2.sub_y]; nlinarith [h1, h2])
  have hedge3 : ∀ p ∈ [(⟨-10, 0⟩ : Vec2), ⟨0, -10⟩, ⟨10, 0⟩, ⟨0, 10⟩],
      is_inside_edge p ⟨-100, 0⟩ ⟨-50, -(50 * Real.sqrt 3)⟩ := by
    intro p hp
    fin_cases hp <;>
      (simp only [is_inside_edge, Vec2.sub_x, Vec2.sub_y]; nlinarith [h1, h2])
  have hedge4 : ∀ p ∈ [(⟨-10, 0⟩ : Vec2), ⟨0, -10⟩, ⟨10, 0⟩, ⟨0, 10⟩],
      is_inside_edge p ⟨-50, -(50 * Real.sqrt 3)⟩ ⟨50, -(50 * Real.sqrt 3)⟩ := by
    intro p hp
    fin_cases hp <;>
      (simp only [is_inside_edge, Vec2.sub_x, Vec2.sub_y]; nlinarith [h1, h2])
  have hedge5 : ∀ p ∈ [(⟨-10, 0⟩ : Vec2), ⟨0, -10⟩, ⟨10, 0⟩, ⟨0, 10⟩],
      is_inside_edge p ⟨50, -(50 * Real.sqrt 3)⟩ ⟨100, 0⟩ := by
    intro p hp
    fin_cases hp <;>
      (simp only [is_inside_edge, Vec2.sub_x, Vec2.sub_y]; nlinarith [h1, h2])
  rw [hexagon_points_hundred, clip_polygon_sutherland_hodgman,
    if_neg (by norm_num)]
  dsimp only
  norm_num only [List.length_cons, List.length_nil]
  rw [show List.range 6 = [0, 1, 2, 3, 4, 5] from rfl]
  simp only [List.foldl_cons, List.foldl_nil]
  norm_num [List.getD]
  rw [clip_one_edge_all_inside _ _ _ hedge0,
    clip_one_edge_all_inside _ _ _ hedge1,
    clip_one_edge_all_inside _ _ _ hedge2,
    clip_one_edge_all_inside _ _ _ hedge3,
    clip_one_edge_all_inside _ _ _ hedge4,
    clip_one_edge_all_inside _ _ _ hedge5]

theorem clip_origin_in_hexagon :
    clip_polygon_sutherland_hodgman
        [⟨0, 0⟩, ⟨0, 0⟩, ⟨0, 0⟩, ⟨0, 0⟩] (hexagon_points 100 ⟨0, 0⟩) =
      [⟨0, 0⟩, ⟨0, 0⟩, ⟨0, 0⟩, ⟨0, 0⟩] := by
  have h1 := sqrt_three_ge_one
  have h2 := sqrt_three_le_two
  have hedge0 : ∀ p ∈ [(⟨0, 0⟩ : Vec2), ⟨0, 0⟩, ⟨0, 0⟩, ⟨0, 0⟩],
      is_inside_edge p ⟨100, 0⟩ ⟨50, 50 * Real.sqrt 3⟩ := by
    intro p hp
    fin_cases hp <;>
      (simp only [is_inside_edge, Vec2.sub_x, Vec2.sub_y]; nlinarith [h1, h2])
  have hedge1 : ∀ p ∈ [(⟨0, 0⟩ : Vec2), ⟨0, 0⟩, ⟨0, 0⟩, ⟨0, 0⟩],
      is_inside_edge p ⟨50, 50 * Real.sqrt 3⟩ ⟨-50, 50 * Real.sqrt 3⟩ := by
    intro p hp
    fin_cases hp <;>
      (simp only [is_inside_edge, Vec2.sub_x, Vec2.sub_y]; nlinarith [h1, h2])
  have hedge2 : ∀ p ∈ [(⟨0, 0⟩ : Vec2), ⟨0, 0⟩, ⟨0, 0⟩, ⟨0, 0⟩],
      is_inside_edge p ⟨-50, 50 * Real.sqrt 3⟩ ⟨-100, 0⟩ := by
    intro p hp
    fin_cases hp <;>
      (simp only [is_inside_edge, Vec2.sub_x, Vec2.sub_y]; nlinarith [h1, h2])
  have hedge3 : ∀ p ∈ [(⟨0, 0⟩ : Vec2), ⟨0, 0⟩, ⟨0, 0⟩, ⟨0, 0⟩],
      is_inside_edge p ⟨-100, 0⟩ ⟨-50, -(50 * Real.sqrt 3)⟩ := by
    intro p hp
    fin_cases hp <;>
      (simp only [is_inside_edge, Vec2.sub_x, Vec2.sub_y]; nlinarith [h1, h2])
  have hedge4 : ∀ p ∈ [(⟨0, 0⟩ : Vec2), ⟨0, 0⟩, ⟨0, 0⟩, ⟨0, 0⟩],
      is_inside_edge p ⟨-50, -(50 * Real.sqrt 3)⟩ ⟨50, -(50 * Real.sqrt 3)⟩ := by
    intro p hp
    fin_cases hp <;>
      (simp only [is_inside_edge, Vec2.sub_x, Vec2.sub_y]; nlinarith [h1, h2])
  have hedge5 : ∀ p ∈ [(⟨0, 0⟩ : Vec2), ⟨0, 0⟩, ⟨0, 0⟩, ⟨0, 0⟩],
      is_inside_edge p ⟨50, -(50 * Real.sqrt 3)⟩ ⟨100, 0⟩ := by
    intro p hp
    fin_cases hp <;>
      (simp only [is_inside_edge, Vec2.sub_x, Vec2.sub_y]; nlinarith [h1, h2])
  rw [hexagon_points_hundred, clip_polygon_sutherland_hodgman,
    if_neg (by norm_num)]
  dsimp only
  norm_num only [List.length_cons, List.length_nil]
  rw [show List.range 6 = [0, 1, 2, 3, 4, 5] from rfl]
  simp only [List.foldl_cons, List.foldl_nil]
  norm_num [List.getD]
  rw [clip_one_edge_all_inside _ _ _ hedge0,
    clip_one_edge_all_inside _ _ _ hedge1,
    clip_one_edge_all_inside _ _ _ hedge2,
    clip_one_edge_all_inside _ _ _ hedge3,
    clip_one_edge_all_inside _ _ _ hedge4,
    clip_one_edge_all_inside _ _ _ hedge5]

theorem polygon_area_diamond :
    polygon_area [⟨-10, 0⟩, ⟨0, -10⟩, ⟨10, 0⟩, ⟨0, 10⟩] = 200 := by
  rw [polygon_area, if_neg (by norm_num)]
  dsimp only
  norm_num only [List.length_cons, List.length_nil]
  rw [show List.range 4 = [0, 1, 2, 3] from rfl]
  simp only [List.foldl_cons, List.foldl_nil]
  norm_num [List.getD]

theorem polygon_area_origin :
    polygon_area [(⟨0, 0⟩ : Vec2), ⟨0, 0⟩, ⟨0, 0⟩, ⟨0, 0⟩] = 0 := by
  rw [polygon_area, if_neg (by norm_num)]
  dsimp only
  norm_num only [List.length_cons, List.length_nil]
  rw [show List.range 4 = [0, 1, 2, 3] from rfl]
  simp only [List.foldl_cons, List.foldl_nil]
  norm_num [List.getD]

theorem aabb_neg_ten : aabb_intersects ⟨0, 0⟩ (-10) ⟨0, 0⟩ 100 := by
  rw [aabb_intersects]
  refine ⟨?_, ?_, ?_, ?_⟩ <;>
    simp only [Vec2.sub_x, Vec2.sub_y, Vec2.add_x, Vec2.add_y] <;>
    nlinarith [sqrt_three_ge_one, sqrt_three_le_two]

theorem aabb_zero_radius : aabb_intersects ⟨0, 0⟩ 0 ⟨0, 0⟩ 100 := by
  rw [aabb_intersects]
  refine ⟨?_, ?_, ?_, ?_⟩ <;>
    simp only [Vec2.sub_x, Vec2.sub_y, Vec2.add_x, Vec2.add_y] <;>
    nlinarith [sqrt_three_ge_one, sqrt_three_le_two]

theorem circle_area_at_neg_ten :
    circle_area_inside_hexagon ⟨0, 0⟩ (-10) ⟨0, 0⟩ 100 4 = 200 := by
  rw [circle_area_inside_hexagon, if_neg (not_not_intro aabb_neg_ten)]
  dsimp only
  rw [circle_points_neg_ten, clip_diamond_in_hexagon, polygon_area_diamond]

theorem circle_area_at_zero :
    circle_area_inside_hexagon ⟨0, 0⟩ 0 ⟨0, 0⟩ 100 4 = 0 := by
  rw [circle_area_inside_hexagon, if_neg (not_not_intro aabb_zero_radius)]
  dsimp only
  rw [circle_points_zero_radius, clip_origin_in_hexagon, polygon_area_origin]

/-- Over all real radii the computed overlap area is not monotone in the
circle radius: with 4 samples and a hexagon of radius 100 about the origin,
radius -10 produces a diamond of area 200 while radius 0 produces a
degenerate polygon of area 0. -/
theorem circle_area_radius_not_monotone :
    (-10 : ℝ) ≤ 0 ∧
    ¬(circle_area_inside_hexagon ⟨0, 0⟩ (-10) ⟨0, 0⟩ 100 4 ≤
      circle_area_inside_hexagon ⟨0, 0⟩ 0 ⟨0, 0⟩ 100 4) := by
  refine ⟨by norm_num, ?_⟩
  rw [circle_area_at_neg_ten, circle_area_at_zero]
  norm_num
